import Mathlib

/-!
Verification development for the IPTV searcher server (`src/server.js`).

Strings are modelled as `List Char` so that every string operation used by
the server (`toLowerCase`, `includes`, truthiness of `''`, lexicographic
comparison used by `Array.prototype.sort`) is an explicit executable
function.  Provider calls, file writes and timers are modelled as explicit
environment/state parameters; JavaScript exceptions are modelled as values.
-/

namespace Iptv

/-- Strings of the JavaScript program, as lists of characters. -/
abbrev Str := List Char

/-- JavaScript `a || b` for a possibly-absent string `a`: the fallback `b`
is used when `a` is `undefined` or the (falsy) empty string.  Models the
`||` chains in `server.js` lines 143-144 and 113. -/
def jsOr : Option Str → Str → Str
  | none, d => d
  | some s, d => if s = [] then d else s

/-- JavaScript `String.prototype.toLowerCase` (per character). -/
def lowerL (s : Str) : Str := s.map Char.toLower

/-- `hasPrefixL hay pat` : does `hay` start with `pat`? -/
def hasPrefixL : Str → Str → Bool
  | _, [] => true
  | [], _ :: _ => false
  | a :: as, b :: bs => a = b && hasPrefixL as bs

/-- JavaScript `String.prototype.includes`: `includesL hay pat` is true iff
`pat` occurs as a contiguous substring of `hay`. -/
def includesL : Str → Str → Bool
  | [], pat => pat.isEmpty
  | a :: hay, pat => hasPrefixL (a :: hay) pat || includesL hay pat

/-- The normalized record shape `{title, link}` (spec `NormalizedResult`). -/
structure NormalizedResult where
  title : Str
  link : Str
deriving DecidableEq, Repr

/-- A raw provider record as consumed by the normalizer at
`server.js:142-145`: each of the fields `title`, `link`, `url` may be
absent (`undefined`). -/
structure RawItem where
  title : Option Str
  link : Option Str
  url : Option Str
deriving DecidableEq, Repr

/-- The result normalizer, `server.js:142-145`:
`{ title: item.title || '', link: item.link || item.url || '' }`. -/
def normalize (item : RawItem) : NormalizedResult :=
  { title := jsOr item.title []
    link := jsOr item.link (jsOr item.url []) }

/-- The dedup loop of `server.js:147-154`, with the set of already-seen
links made explicit: a record is inserted iff its link is truthy
(non-empty) and not yet a key of the map; `Array.from(map.values())`
returns insertion order. -/
def dedupAux (seen : List Str) : List NormalizedResult → List NormalizedResult
  | [] => []
  | r :: rs =>
    if r.link ≠ [] ∧ r.link ∉ seen then
      r :: dedupAux (r.link :: seen) rs
    else
      dedupAux seen rs

/-- `uniqueResults` of `server.js:147-154`. -/
def dedup (l : List NormalizedResult) : List NormalizedResult := dedupAux [] l

/-- The fixed query-term list `AUTO_TERMS`, `server.js:52-60`. -/
def AUTO_TERMS : List Str :=
  ["iptv".data, "m3u".data, "bein".data, "بث مباشر".data,
   "world-iptv.club".data,
   "stbemuiptv.com".data,
   "iptv2live.com".data,
   "sultanovic.info".data,
   "tvappapk.com".data,
   "sat-forum.net".data]

/-- The filter predicate of `server.js:156-158`:
`AUTO_TERMS.some(term => item.link.toLowerCase().includes(term.toLowerCase()))`. -/
def keepItem (item : NormalizedResult) : Bool :=
  AUTO_TERMS.any fun term => includesL (lowerL item.link) (lowerL term)

/-- `filtered` of `server.js:156-158`. -/
def filterStep (l : List NormalizedResult) : List NormalizedResult :=
  l.filter keepItem

/-- `const query = AUTO_TERMS.join(' ')`, `server.js:72`. -/
def query : Str := List.intercalate [' '] AUTO_TERMS

/-- The literal query string passed to the Exa (semantic search) adapter,
`server.js:107-110`. -/
def exaQuery : Str :=
  "This page shares working IPTV and M3U playlists for Bein Sports and more".data

/-- The query string sent to each of the three provider adapters, in the
invocation order of `runAutoSearch`: Google custom search (`server.js:86`,
`q=${encodeURIComponent(query)}`), Exa (`server.js:107-110`), SerpAPI
(`server.js:127`, `q: query`). -/
def adapterQueries : List Str := [query, exaQuery, query]

/-- Outcome of one Google custom-search page request (`axios.get` at
`server.js:87`): either a payload (`response.data.items || []`) or a
thrown error carrying `err.response?.status`. -/
inductive PageOutcome where
  | ok (items : List RawItem)
  | fail (status : Option Nat)
deriving DecidableEq, Repr

/-- The page offsets visited by the Google loop
`for (let start = 1; start <= 91; start += 10)`, `server.js:84`. -/
def googleStarts : List Nat := (List.range 10).map fun i => 10 * i + 1

/-- The Google pagination loop body, `server.js:84-97`: each page's items
are appended; an error is logged and skipped, except an HTTP 429, which
breaks out of the loop keeping what was already collected. -/
def googleFetch (resp : Nat → PageOutcome) : List Nat → List RawItem
  | [] => []
  | p :: ps =>
    match resp p with
    | .ok items => items ++ googleFetch resp ps
    | .fail status => if status = some 429 then [] else googleFetch resp ps

/-- A raw Exa result `r`, with `r.url` always a string and `r.title`
possibly absent (`server.js:112-115`). -/
structure ExaRaw where
  title : Option Str
  url : Str
deriving DecidableEq, Repr

/-- The Exa adapter's own mapping, `server.js:112-115`:
`{ title: r.title || r.url, link: r.url }` (no `url` field on the result). -/
def exaMap (r : ExaRaw) : RawItem :=
  { title := some (jsOr r.title r.url), link := some r.url, url := none }

/-- The external world one aggregation pass runs against: credential
presence, each provider's responses, the snapshot write outcome
(`fs.writeFileSync` succeeding or throwing) and the clock value
(`Date.now()`) used for the snapshot filename. -/
structure ProviderEnv where
  googleCreds : Bool
  googleResp : Nat → PageOutcome
  exaResp : Except Str (List ExaRaw)
  serpKey : Bool
  serpResp : Except Str (List RawItem)
  now : Nat
  writeOk : Bool

/-- Google's contribution to `allItems`, `server.js:83-98`: empty unless
both `GOOGLE_SEARCH_API_KEY` and `GOOGLE_CSE_ID` are set. -/
def googleContrib (env : ProviderEnv) : List RawItem :=
  if env.googleCreds then googleFetch env.googleResp googleStarts else []

/-- Exa's contribution to `allItems`, `server.js:104-120`: empty when the
Exa call throws (the surrounding `try` swallows the error). -/
def exaContrib (env : ProviderEnv) : List RawItem :=
  match env.exaResp with
  | .ok rs => rs.map exaMap
  | .error _ => []

/-- SerpAPI's contribution to `allItems`, `server.js:122-139`: empty when
`SERPAPI_API_KEY` is absent or the call throws. -/
def serpContrib (env : ProviderEnv) : List RawItem :=
  if env.serpKey then
    match env.serpResp with
    | .ok rs => rs
    | .error _ => []
  else []

/-- `allItems` at the end of the three provider blocks, `server.js:76-139`:
the concatenation of the providers' contributions in fixed order. -/
def allItems (env : ProviderEnv) : List RawItem :=
  googleContrib env ++ exaContrib env ++ serpContrib env

/-- The pure pipeline of `server.js:142-158`: normalize, dedup, filter. -/
def processItems (items : List RawItem) : List NormalizedResult :=
  filterStep (dedup (items.map normalize))

/-- Decimal digits, most significant first, with an explicit fuel bound so
that the recursion is structural (the fuel only needs to dominate the
value, see `digitsFuel_congr`). -/
def digitsFuel : Nat → Nat → List Nat
  | _, 0 => []
  | 0, _ + 1 => []
  | fuel + 1, n + 1 => digitsFuel fuel ((n + 1) / 10) ++ [(n + 1) % 10]

/-- Decimal digits of a positive number, most significant first
(empty for 0); auxiliary to `natDigits`. -/
def digitsAux (n : Nat) : List Nat := digitsFuel n n

/-- The decimal digits of the interpolated `Date.now()` value, as
JavaScript renders a natural number in a template string. -/
def natDigits (n : Nat) : List Nat :=
  if n = 0 then [0] else digitsAux n

/-- The character for one decimal digit. -/
def digitChar (d : Nat) : Char := Char.ofNat (48 + d)

/-- The snapshot filename `auto_results_${Date.now()}.json`,
`server.js:160`. -/
def snapshotFilename (t : Nat) : Str :=
  "auto_results_".data ++ (natDigits t).map digitChar ++ ".json".data

/-- Lexicographic (code-unit) strict comparison of strings, as used by
JavaScript `Array.prototype.sort` with no comparator on the filename
lists at `server.js:284` and `server.js:300`. -/
def lexLtB : Str → Str → Bool
  | [], [] => false
  | [], _ :: _ => true
  | _ :: _, [] => false
  | a :: as, b :: bs => decide (a < b) || (a == b && lexLtB as bs)

/-- The larger of two strings under `lexLtB`. -/
def lexMax (a b : Str) : Str := if lexLtB a b then b else a

/-- The filename filter of `server.js:283` and `server.js:299`: keep the
names that start with `auto_results_` and end with `.json`. -/
def isSnapshotName (n : Str) : Bool :=
  hasPrefixL n "auto_results_".data && hasPrefixL n.reverse ".json".data.reverse

/-- `files.sort().reverse()[0]` on the filtered directory listing,
`server.js:282-291`: the lexicographically greatest snapshot name, or
`none` when no snapshot name is listed. -/
def latestName (names : List Str) : Option Str :=
  match names.filter isSnapshotName with
  | [] => none
  | f :: fs => some (fs.foldl lexMax f)

/-- Association-list read of a directory: `fs.readFileSync` succeeds with
the file's contents or throws (`none`) when the name is absent. -/
def lookupFile : List (Str × Str) → Str → Option Str
  | [], _ => none
  | (n, c) :: rest, k => if n = k then some c else lookupFile rest k

/-- The two directories the snapshot endpoints touch: the process working
directory (`fs.readdirSync('.')`, and where `fs.writeFileSync(filename)`
writes, `server.js:161`) and the directory of the server source file
(`path.join(__dirname, latestFile)`, `server.js:292` and 308). Each is a
list of (name, contents) entries. -/
structure FileStore where
  cwdFiles : List (Str × Str)
  srcFiles : List (Str × Str)

/-- Outcome of `/api/latest-results` (and of the file read of
`/api/download-latest`, which selects the same path the same way). -/
inductive ReadOutcome where
  | notFound
  | readError
  | ok (content : Str)
deriving DecidableEq, Repr

/-- `/api/latest-results`, `server.js:281-294`: enumerate the working
directory, filter and sort to choose the latest snapshot name, then read
that name from the source-file directory (`__dirname`). -/
def latestResults (fsys : FileStore) : ReadOutcome :=
  match latestName (fsys.cwdFiles.map Prod.fst) with
  | none => .notFound
  | some sel =>
    match lookupFile fsys.srcFiles sel with
    | some c => .ok c
    | none => .readError

/-- The mutable scheduler state of `server.js:50-64`: the `scheduler`
handle, the `activeIntervals` set, the `isRunning` flag, plus the names of
the snapshot files written so far (into the working directory). -/
structure SchedState where
  scheduler : Option Nat
  activeIntervals : List Nat
  isRunning : Bool
  snapshots : List Str
deriving DecidableEq, Repr

/-- How one invocation of `runAutoSearch` ends: the early `return` when a
pass is in flight, normal completion returning `{filtered, filename}`, or
an exception escaping (only the `fs.writeFileSync` at `server.js:161` can
throw — every provider block catches its own errors). -/
inductive PassResult where
  | skipped
  | completed (filtered : List NormalizedResult) (filename : Str)
  | threw
deriving DecidableEq, Repr

/-- `runAutoSearch`, `server.js:66-166`, as a transition on the scheduler
state. If `isRunning` is set, it returns at once with nothing changed.
Otherwise `isRunning` is set to `true` before the provider calls; on a
successful snapshot write it is reset to `false` and the pass completes; a
write failure throws out of the function with `isRunning` still `true`. -/
def runAutoSearch (st : SchedState) (env : ProviderEnv) :
    SchedState × PassResult :=
  if st.isRunning then (st, .skipped)
  else
    let filtered := processItems (allItems env)
    let filename := snapshotFilename env.now
    if env.writeOk then
      ({ st with isRunning := false, snapshots := filename :: st.snapshots },
       .completed filtered filename)
    else
      ({ st with isRunning := true }, .threw)

/-- The `setInterval` callback armed at `server.js:198-205`: run a pass;
if it throws, log and reset `isRunning` to `false`. -/
def schedulerTick (st : SchedState) (env : ProviderEnv) : SchedState :=
  let p := runAutoSearch st env
  match p.2 with
  | .threw => { p.1 with isRunning := false }
  | _ => p.1

/-- Response of `/api/start-scheduler`: the JSON success body (results and
filename, `server.js:211-215`) or the 500 error of the `catch` at
`server.js:216-219`. -/
inductive StartResponse where
  | ok (results : List NormalizedResult) (filename : Str)
  | error
deriving DecidableEq, Repr

/-- `/api/start-scheduler`, `server.js:178-220`: clear the existing
`scheduler` handle and every member of `activeIntervals`; run one pass
immediately; on success arm a fresh interval (`freshId`) and register it
in `activeIntervals`; if the immediate pass throws, answer 500 — note the
`catch` neither resets `isRunning` nor arms a timer. A skipped pass
(`runAutoSearch` returned `undefined`) still arms the timer and answers
with an empty result list and the filename placeholder `no_file`. -/
def startScheduler (st : SchedState) (env : ProviderEnv) (freshId : Nat) :
    SchedState × StartResponse :=
  let st1 := { st with scheduler := none, activeIntervals := [] }
  let p := runAutoSearch st1 env
  match p.2 with
  | .threw => (p.1, .error)
  | .completed filtered filename =>
    ({ p.1 with scheduler := some freshId, activeIntervals := [freshId] },
     .ok filtered filename)
  | .skipped =>
    ({ p.1 with scheduler := some freshId, activeIntervals := [freshId] },
     .ok [] "no_file".data)

/-- Response of `/api/stop-scheduler`, `server.js:250-256`. -/
inductive StopResponse where
  | stopped (count : Nat)
  | notRunning
deriving DecidableEq, Repr

/-- `/api/stop-scheduler`, `server.js:228-257`: clear the `scheduler`
handle and every member of `activeIntervals`, unconditionally reset
`isRunning`, and report how many handles were cleared (the main handle
counts once and each set member once). -/
def stopScheduler (st : SchedState) : SchedState × StopResponse :=
  let count := (if st.scheduler.isSome then 1 else 0) + st.activeIntervals.length
  ({ st with scheduler := none, activeIntervals := [], isRunning := false },
   if count > 0 then .stopped count else .notRunning)

/-- The numeric value of a most-significant-first digit list; used to
relate `natDigits` back to the timestamp it renders. -/
def valD : List Nat → Nat
  | [] => 0
  | d :: ds => d * 10 ^ ds.length + valD ds

/-- A concrete normalized record matching the term `iptv`. -/
def sampleKept : NormalizedResult :=
  ⟨"A".data, "http://iptv.example/a".data⟩

/-- A concrete normalized record matching none of the query terms. -/
def sampleDropped : NormalizedResult :=
  ⟨"C".data, "http://unrelated.example/c".data⟩

/-- A concrete pipeline input with a duplicated link and an empty link. -/
def sampleRecords : List NormalizedResult :=
  [sampleKept, ⟨"B".data, "http://iptv.example/a".data⟩, ⟨"D".data, []⟩]

/-- A concrete raw item whose only URL information is the `url` field. -/
def sampleRaw : RawItem := ⟨some "A".data, some "http://iptv.example/a".data, none⟩

/-- A concrete provider environment in which every provider is degraded
and the snapshot write succeeds. -/
def sampleEnv : ProviderEnv :=
  { googleCreds := false
    googleResp := fun _ => .fail none
    exaResp := .error "network".data
    serpKey := false
    serpResp := .error "network".data
    now := 5
    writeOk := true }

/-- A concrete provider environment whose snapshot write throws. -/
def envWriteFail : ProviderEnv := { sampleEnv with now := 7, writeOk := false }

/-- A concrete Google page-response function: the first page succeeds,
every later page answers HTTP 429. -/
def resp429 : Nat → PageOutcome :=
  fun p => if p = 1 then .ok [sampleRaw] else .fail (some 429)

/-- A concrete provider environment that is rate limited by Google after
one page and whose Exa call throws. -/
def env429 : ProviderEnv :=
  { googleCreds := true
    googleResp := resp429
    exaResp := .error "boom".data
    serpKey := true
    serpResp := .ok []
    now := 3
    writeOk := true }

/-- Scheduler state with a pass in flight. -/
def stBusy : SchedState :=
  { scheduler := none, activeIntervals := [], isRunning := true, snapshots := [] }

/-- Scheduler state before any start. -/
def idleState : SchedState :=
  { scheduler := none, activeIntervals := [], isRunning := false, snapshots := [] }

/-- Scheduler state with a timer already armed. -/
def runningState : SchedState :=
  { scheduler := some 0, activeIntervals := [0], isRunning := false, snapshots := [] }

/-- One concrete snapshot directory entry. -/
def sampleEntry : Str × Str := ("auto_results_1.json".data, "[]".data)

/-- A file store whose working directory and source directory coincide. -/
def storeMatch : FileStore := { cwdFiles := [sampleEntry], srcFiles := [sampleEntry] }

/-- A file store whose working directory holds a snapshot but whose
source directory does not. -/
def storeMismatch : FileStore := { cwdFiles := [sampleEntry], srcFiles := [] }

/-! ## Lemmas about the dedup loop -/

theorem dedupAux_sublist (l : List NormalizedResult) :
    ∀ seen, (dedupAux seen l).Sublist l := by
  induction l with
  | nil => intro seen; simp [dedupAux]
  | cons r rs ih =>
    intro seen
    simp only [dedupAux]
    split
    · exact List.Sublist.cons₂ r (ih _)
    · exact List.Sublist.cons r (ih _)

theorem mem_dedupAux {r : NormalizedResult} :
    ∀ (l : List NormalizedResult) (seen : List Str), r ∈ dedupAux seen l →
      r.link ≠ [] ∧ r.link ∉ seen ∧ r ∈ l := by
  intro l
  induction l with
  | nil => intro seen h; simp [dedupAux] at h
  | cons r' rs ih =>
    intro seen h
    simp only [dedupAux] at h
    split at h
    · rename_i hc
      rcases List.mem_cons.mp h with h | h
      · subst h; exact ⟨hc.1, hc.2, List.mem_cons_self _ _⟩
      · obtain ⟨h1, h2, h3⟩ := ih _ h
        exact ⟨h1, fun hs => h2 (List.mem_cons_of_mem _ hs), List.mem_cons_of_mem _ h3⟩
    · obtain ⟨h1, h2, h3⟩ := ih _ h
      exact ⟨h1, h2, List.mem_cons_of_mem _ h3⟩

theorem dedupAux_keys_nodup :
    ∀ (l : List NormalizedResult) (seen : List Str),
      ((dedupAux seen l).map NormalizedResult.link).Nodup := by
  intro l
  induction l with
  | nil => intro seen; simp [dedupAux]
  | cons r' rs ih =>
    intro seen
    simp only [dedupAux]
    split
    · simp only [List.map_cons, List.nodup_cons]
      refine ⟨?_, ih _⟩
      intro hmem
      obtain ⟨r, hr, hlink⟩ := List.mem_map.mp hmem
      have := (mem_dedupAux rs _ hr).2.1
      exact this (hlink ▸ List.mem_cons_self _ _)
    · exact ih _

theorem dedupAux_complete :
    ∀ (l : List NormalizedResult) (seen : List Str) (k : Str),
      (∃ r ∈ l, r.link = k) → k ≠ [] → k ∉ seen →
      ∃ r' ∈ dedupAux seen l, r'.link = k := by
  intro l
  induction l with
  | nil => intro seen k h _ _; simp at h
  | cons r' rs ih =>
    intro seen k h hk hks
    simp only [dedupAux]
    split
    · rename_i hc
      by_cases hek : r'.link = k
      · exact ⟨r', List.mem_cons_self _ _, hek⟩
      · have hnotin : k ∉ r'.link :: seen := by
          intro hmem
          rcases List.mem_cons.mp hmem with h' | h'
          · exact hek h'.symm
          · exact hks h'
        obtain ⟨r, hr, hlink⟩ := h
        rcases List.mem_cons.mp hr with h | h
        · exact absurd (h ▸ hlink) hek
        · obtain ⟨r'', hr'', hl''⟩ := ih (r'.link :: seen) k ⟨r, h, hlink⟩ hk hnotin
          exact ⟨r'', List.mem_cons_of_mem _ hr'', hl''⟩
    · rename_i hc
      obtain ⟨r, hr, hlink⟩ := h
      rcases List.mem_cons.mp hr with h | h
      · exfalso
        exact hc ⟨h ▸ hlink ▸ hk, h ▸ hlink ▸ hks⟩
      · exact ih seen k ⟨r, h, hlink⟩ hk hks

theorem dedupAux_first :
    ∀ (l : List NormalizedResult) (seen : List Str) (r : NormalizedResult),
      r ∈ dedupAux seen l →
      l.find? (fun x => x.link == r.link) = some r := by
  intro l
  induction l with
  | nil => intro seen r h; simp [dedupAux] at h
  | cons r' rs ih =>
    intro seen r h
    simp only [dedupAux] at h
    split at h
    · rename_i hc
      rcases List.mem_cons.mp h with h | h
      · subst h; simp [List.find?]
      · have hne : r.link ≠ r'.link := by
          intro he
          exact (mem_dedupAux rs _ h).2.1 (he ▸ List.mem_cons_self _ _)
        have : (r'.link == r.link) = false := by
          simp only [beq_eq_false_iff_ne, ne_eq]
          exact fun he => hne he.symm
        simp only [List.find?, this]
        exact ih _ r h
    · rename_i hc
      obtain ⟨h1, h2, _⟩ := mem_dedupAux rs seen h
      have hne : r.link ≠ r'.link := by
        intro he
        rcases not_and_or.mp hc with hc' | hc'
        · exact h1 (he.trans (not_not.mp hc'))
        · exact h2 (he ▸ not_not.mp hc')
      have : (r'.link == r.link) = false := by
        simp only [beq_eq_false_iff_ne, ne_eq]
        exact fun he => hne he.symm
      simp only [List.find?, this]
      exact ih _ r h

/-! ## Lemmas about decimal rendering and lexicographic order -/

theorem digitsFuel_congr :
    ∀ (n fuel₁ fuel₂ : Nat), n ≤ fuel₁ → n ≤ fuel₂ →
      digitsFuel fuel₁ n = digitsFuel fuel₂ n := by
  intro n
  induction n using Nat.strong_induction_on with
  | _ n ih =>
    intro fuel₁ fuel₂ h₁ h₂
    cases n with
    | zero => cases fuel₁ <;> cases fuel₂ <;> simp [digitsFuel]
    | succ m =>
      cases fuel₁ with
      | zero => omega
      | succ f₁ =>
        cases fuel₂ with
        | zero => omega
        | succ f₂ =>
          have hd : (m + 1) / 10 < m + 1 := Nat.div_lt_self (Nat.succ_pos m) (by omega)
          simp only [digitsFuel]
          rw [ih ((m + 1) / 10) hd f₁ f₂ (by omega) (by omega)]

theorem digitsAux_succ (n : Nat) :
    digitsAux (n + 1) = digitsAux ((n + 1) / 10) ++ [(n + 1) % 10] := by
  have hd : (n + 1) / 10 < n + 1 := Nat.div_lt_self (Nat.succ_pos n) (by omega)
  show digitsFuel (n + 1) (n + 1) = digitsFuel ((n + 1) / 10) ((n + 1) / 10) ++ _
  simp only [digitsFuel]
  rw [digitsFuel_congr ((n + 1) / 10) n ((n + 1) / 10) (by omega) (Nat.le_refl _)]

theorem valD_append_single (l : List Nat) (d : Nat) :
    valD (l ++ [d]) = 10 * valD l + d := by
  induction l with
  | nil => simp [valD]
  | cons e l ih =>
    show e * 10 ^ (l ++ [d]).length + valD (l ++ [d]) = 10 * (e * 10 ^ l.length + valD l) + d
    rw [ih, List.length_append, List.length_singleton]
    ring

theorem valD_digitsAux : ∀ n, valD (digitsAux n) = n := by
  intro n
  induction n using Nat.strong_induction_on with
  | _ n ih =>
    cases n with
    | zero => simp [digitsAux, digitsFuel, valD]
    | succ m =>
      rw [digitsAux_succ, valD_append_single,
        ih ((m + 1) / 10) (Nat.div_lt_self (Nat.succ_pos m) (by omega))]
      omega

theorem digitsAux_lt_ten : ∀ n, ∀ d ∈ digitsAux n, d < 10 := by
  intro n
  induction n using Nat.strong_induction_on with
  | _ n ih =>
    cases n with
    | zero => intro d hd; simp [digitsAux, digitsFuel] at hd
    | succ m =>
      intro d hd
      rw [digitsAux_succ] at hd
      rcases List.mem_append.mp hd with h | h
      · exact ih _ (Nat.div_lt_self (Nat.succ_pos m) (by omega)) d h
      · rw [List.mem_singleton] at h
        subst h
        omega

theorem natDigits_lt_ten (n : Nat) : ∀ d ∈ natDigits n, d < 10 := by
  intro d hd
  unfold natDigits at hd
  split at hd
  · rw [List.mem_singleton] at hd; omega
  · exact digitsAux_lt_ten n d hd

theorem valD_natDigits (n : Nat) : valD (natDigits n) = n := by
  unfold natDigits
  split
  · rename_i h; subst h; simp [valD]
  · exact valD_digitsAux n

theorem valD_lt_pow (l : List Nat) (h : ∀ d ∈ l, d < 10) :
    valD l < 10 ^ l.length := by
  induction l with
  | nil => simp [valD]
  | cons d ds ih =>
    have hd : d ≤ 9 := by have := h d (List.mem_cons_self _ _); omega
    have hv : valD ds < 10 ^ ds.length :=
      ih fun e he => h e (List.mem_cons_of_mem _ he)
    calc valD (d :: ds) = d * 10 ^ ds.length + valD ds := rfl
      _ < d * 10 ^ ds.length + 10 ^ ds.length := Nat.add_lt_add_left hv _
      _ ≤ 9 * 10 ^ ds.length + 10 ^ ds.length :=
          Nat.add_le_add_right (Nat.mul_le_mul_right _ hd) _
      _ = 10 ^ (d :: ds).length := by
          simp only [List.length_cons]
          ring

theorem digitsAux_length_le : ∀ n k : Nat, n < 10 ^ k → (digitsAux n).length ≤ k := by
  intro n
  induction n using Nat.strong_induction_on with
  | _ n ih =>
    intro k hk
    cases n with
    | zero => simp [digitsAux, digitsFuel]
    | succ m =>
      cases k with
      | zero => omega
      | succ k' =>
        rw [digitsAux_succ, List.length_append, List.length_singleton]
        have hd : (m + 1) / 10 < m + 1 := Nat.div_lt_self (Nat.succ_pos m) (by omega)
        have h10 : (m + 1) < 10 ^ k' * 10 := by
          rw [← pow_succ]
          exact hk
        have hlt : (m + 1) / 10 < 10 ^ k' := (Nat.div_lt_iff_lt_mul (by omega)).mpr h10
        have := ih _ hd k' hlt
        omega

theorem digitsAux_length_gt (n k : Nat) (hk : 10 ^ k ≤ n) :
    k < (digitsAux n).length := by
  have h1 : valD (digitsAux n) = n := valD_digitsAux n
  have h2 : valD (digitsAux n) < 10 ^ (digitsAux n).length :=
    valD_lt_pow _ (digitsAux_lt_ten n)
  have h3 : 10 ^ k < 10 ^ (digitsAux n).length := by omega
  exact (Nat.pow_lt_pow_iff_right (by omega)).mp h3

theorem natDigits_length_13 (t : Nat) (h1 : 10 ^ 12 ≤ t) (h2 : t < 10 ^ 13) :
    (natDigits t).length = 13 := by
  have hp : 0 < 10 ^ 12 := Nat.pos_pow_of_pos 12 (by omega)
  have hne : t ≠ 0 := by omega
  unfold natDigits
  rw [if_neg hne]
  have hle := digitsAux_length_le t 13 h2
  have hgt := digitsAux_length_gt t 12 h1
  omega

theorem digitChar_mono : ∀ a < 10, ∀ b < 10, a < b → digitChar a < digitChar b := by
  decide

theorem lexLtB_append_left (p : Str) :
    ∀ x y, lexLtB (p ++ x) (p ++ y) = lexLtB x y := by
  induction p with
  | nil => intro x y; rfl
  | cons c p ih =>
    intro x y
    simp only [List.cons_append, lexLtB]
    simp [lt_irrefl, ih]

theorem lexLtB_append_of_lt :
    ∀ x y s t : Str, x.length = y.length → lexLtB x y = true →
      lexLtB (x ++ s) (y ++ t) = true := by
  intro x
  induction x with
  | nil =>
    intro y s t hlen h
    cases y with
    | nil => simp [lexLtB] at h
    | cons b bs => simp at hlen
  | cons a as ih =>
    intro y s t hlen h
    cases y with
    | nil => simp at hlen
    | cons b bs =>
      simp only [lexLtB, Bool.or_eq_true, Bool.and_eq_true] at h
      simp only [List.cons_append, lexLtB]
      rcases h with h' | ⟨h1, h2⟩
      · simp [h']
      · have hrec := ih bs s t (by simpa using hlen) h2
        simp [h1, hrec]

theorem lexLt_digits_of_valD_lt :
    ∀ l₁ l₂ : List Nat, l₁.length = l₂.length →
      (∀ d ∈ l₁, d < 10) → (∀ d ∈ l₂, d < 10) → valD l₁ < valD l₂ →
      lexLtB (l₁.map digitChar) (l₂.map digitChar) = true := by
  intro l₁
  induction l₁ with
  | nil =>
    intro l₂ hlen _ _ hv
    cases l₂ with
    | nil => simp [valD] at hv
    | cons b bs => simp at hlen
  | cons a as ih =>
    intro l₂ hlen h₁ h₂ hv
    cases l₂ with
    | nil => simp at hlen
    | cons b bs =>
      have hlen' : as.length = bs.length := by simpa using hlen
      have ha : a < 10 := h₁ a (List.mem_cons_self _ _)
      have hb : b < 10 := h₂ b (List.mem_cons_self _ _)
      have hvas : valD as < 10 ^ as.length :=
        valD_lt_pow as fun d hd => h₁ d (List.mem_cons_of_mem _ hd)
      have hvbs : valD bs < 10 ^ bs.length :=
        valD_lt_pow bs fun d hd => h₂ d (List.mem_cons_of_mem _ hd)
      have hab : a ≤ b := by
        by_contra hba
        push_neg at hba
        have hcts : valD (b :: bs) < valD (a :: as) := by
          have hba' : b + 1 ≤ a := hba
          calc valD (b :: bs) = b * 10 ^ bs.length + valD bs := rfl
            _ < b * 10 ^ bs.length + 10 ^ bs.length := Nat.add_lt_add_left hvbs _
            _ = (b + 1) * 10 ^ bs.length := by ring
            _ ≤ a * 10 ^ bs.length := Nat.mul_le_mul_right _ hba'
            _ = a * 10 ^ as.length := by rw [hlen']
            _ ≤ a * 10 ^ as.length + valD as := Nat.le_add_right _ _
            _ = valD (a :: as) := rfl
        omega
      rcases Nat.lt_or_ge a b with hlt | hge
      · have hcc := digitChar_mono a ha b hb hlt
        simp [lexLtB, hcc]
      · have heq : a = b := Nat.le_antisymm hab hge
        subst heq
        have hvv : valD as < valD bs := by
          simp only [valD] at hv
          rw [hlen'] at hv
          omega
        have hrec := ih bs hlen'
          (fun d hd => h₁ d (List.mem_cons_of_mem _ hd))
          (fun d hd => h₂ d (List.mem_cons_of_mem _ hd)) hvv
        simp [lexLtB, lt_irrefl, hrec]

theorem snapshotFilename_lt_of_lt (t₁ t₂ : Nat) (h : t₁ < t₂)
    (hlen : (natDigits t₁).length = (natDigits t₂).length) :
    lexLtB (snapshotFilename t₁) (snapshotFilename t₂) = true := by
  unfold snapshotFilename
  rw [List.append_assoc, List.append_assoc, lexLtB_append_left]
  apply lexLtB_append_of_lt
  · simp [hlen]
  · apply lexLt_digits_of_valD_lt _ _ hlen (natDigits_lt_ten t₁) (natDigits_lt_ten t₂)
    rw [valD_natDigits, valD_natDigits]
    exact h

theorem hasPrefixL_append (p : Str) : ∀ s, hasPrefixL (p ++ s) p = true := by
  induction p with
  | nil => intro s; cases s <;> rfl
  | cons c p ih => intro s; simp [hasPrefixL, ih]

theorem isSnapshotName_filename (t : Nat) :
    isSnapshotName (snapshotFilename t) = true := by
  simp only [isSnapshotName, snapshotFilename, Bool.and_eq_true]
  constructor
  · rw [List.append_assoc]
    exact hasPrefixL_append _ _
  · rw [List.reverse_append, List.reverse_append]
    exact hasPrefixL_append _ _

theorem foldl_lexMax_mem :
    ∀ (fs : List Str) (f : Str), fs.foldl lexMax f = f ∨ fs.foldl lexMax f ∈ fs := by
  intro fs
  induction fs with
  | nil => intro f; left; rfl
  | cons g gs ih =>
    intro f
    rw [List.foldl_cons]
    rcases ih (lexMax f g) with h | h
    · rw [h]
      unfold lexMax
      split
      · right; exact List.mem_cons_self _ _
      · left; rfl
    · right; exact List.mem_cons_of_mem _ h

theorem latestName_mem (names : List Str) (sel : Str)
    (h : latestName names = some sel) : sel ∈ names := by
  unfold latestName at h
  split at h
  · exact absurd h (by simp)
  · rename_i f fs heq
    injection h with hsel
    have hmemf : ∀ x ∈ f :: fs, x ∈ names := by
      intro x hx
      have : x ∈ names.filter isSnapshotName := heq ▸ hx
      exact List.mem_of_mem_filter this
    subst hsel
    rcases foldl_lexMax_mem fs f with h' | h'
    · rw [h']
      exact hmemf _ (List.mem_cons_self f fs)
    · exact hmemf _ (List.mem_cons_of_mem _ h')

theorem lookupFile_of_mem_keys :
    ∀ (l : List (Str × Str)) (k : Str), k ∈ l.map Prod.fst →
      ∃ c, lookupFile l k = some c ∧ (k, c) ∈ l := by
  intro l
  induction l with
  | nil => intro k h; simp at h
  | cons e rest ih =>
    obtain ⟨n, c⟩ := e
    intro k h
    by_cases hk : n = k
    · subst hk
      exact ⟨c, by simp [lookupFile], List.mem_cons_self _ _⟩
    · simp only [List.map_cons] at h
      rcases List.mem_cons.mp h with h' | h'
      · exact absurd h'.symm hk
      · obtain ⟨c', hc1, hc2⟩ := ih k h'
        exact ⟨c', by simp [lookupFile, hk, hc1], List.mem_cons_of_mem _ hc2⟩

/-! ## Claim theorems -/

/-- C1: On any concatenated list of normalized records, the dedup step of
one aggregation pass produces a ResultSet that keeps records in
concatenation (first-seen) order, contains no record with an empty link,
has pairwise-distinct links, contains a record for every distinct
non-empty link of the input, and keeps for each link exactly the first
occurrence of that link in concatenation order. -/
theorem dedup_resultset_spec (l : List NormalizedResult) :
    (dedup l).Sublist l ∧
    (∀ r ∈ dedup l, r.link ≠ []) ∧
    ((dedup l).map NormalizedResult.link).Nodup ∧
    (∀ r ∈ l, r.link ≠ [] → ∃ r' ∈ dedup l, r'.link = r.link) ∧
    (∀ r ∈ dedup l, l.find? (fun x => x.link == r.link) = some r) := by
  refine ⟨dedupAux_sublist l [], ?_, dedupAux_keys_nodup l [], ?_, ?_⟩
  · intro r hr
    exact (mem_dedupAux l [] hr).1
  · intro r hr hlink
    exact dedupAux_complete l [] r.link ⟨r, hr, rfl⟩ hlink (by simp)
  · intro r hr
    exact dedupAux_first l [] r hr

/-- Witness: on a concrete list with a duplicate link, the kept record is
the first occurrence. -/
theorem dedup_resultset_spec_witness :
    sampleRecords.find? (fun x => x.link == sampleKept.link) = some sampleKept :=
  (dedup_resultset_spec sampleRecords).2.2.2.2 sampleKept (by decide)

/-- C2: While the in-flight flag is set, a further trigger of
`runAutoSearch` — direct or from the interval callback — is a complete
no-op: the scheduler state (flag, timers and persisted snapshot list) is
unchanged, the skip is reported, and the outcome does not depend on the
providers or on the snapshot store. -/
theorem inflight_second_trigger_noop (st : SchedState) (env env' : ProviderEnv)
    (h : st.isRunning = true) :
    runAutoSearch st env = (st, PassResult.skipped) ∧
    schedulerTick st env = st ∧
    runAutoSearch st env = runAutoSearch st env' := by
  refine ⟨?_, ?_, ?_⟩ <;> simp [runAutoSearch, schedulerTick, h]

/-- Witness: a concrete busy state is left untouched by a second trigger. -/
theorem inflight_second_trigger_noop_witness :
    runAutoSearch stBusy sampleEnv = (stBusy, PassResult.skipped) ∧
    schedulerTick stBusy sampleEnv = stBusy ∧
    runAutoSearch stBusy sampleEnv = runAutoSearch stBusy envWriteFail :=
  inflight_second_trigger_noop stBusy sampleEnv envWriteFail rfl

/-- C3: Evaluation at the failing input. A manual `start` whose snapshot
write throws terminates the pass with the in-flight flag still set — the
`/api/start-scheduler` catch answers 500 without resetting `isRunning` —
whereas the periodic-tick wrapper does reset the flag on the very same
failure. This contradicts the claim that no terminated pass leaves the
flag set. -/
theorem start_write_failure_flag_stuck :
    (startScheduler idleState envWriteFail 1).1.isRunning = true ∧
    (startScheduler idleState envWriteFail 1).2 = StartResponse.error ∧
    (startScheduler idleState envWriteFail 1).1.snapshots = [] ∧
    (schedulerTick idleState envWriteFail).isRunning = false := by
  decide

/-- C4 counterexample: the Exa adapter is invoked with a hard-coded
descriptive prompt, not with the space-joined `AUTO_TERMS` query. -/
theorem exa_query_not_joined_terms :
    exaQuery ∈ adapterQueries ∧ exaQuery ≠ query := by
  constructor
  · simp [adapterQueries]
  · decide

/-- C4 (amended): the Google and SerpAPI adapters are invoked with the
QueryTermSet joined with single spaces, while the Exa adapter is invoked
with a fixed prompt that differs from that joined query. -/
theorem adapter_queries_amended :
    adapterQueries[0]? = some (List.intercalate [' '] AUTO_TERMS) ∧
    adapterQueries[2]? = some (List.intercalate [' '] AUTO_TERMS) ∧
    adapterQueries[1]? = some exaQuery ∧
    exaQuery ≠ List.intercalate [' '] AUTO_TERMS :=
  ⟨rfl, rfl, rfl, by decide⟩

/-- C5 counterexample: a raw record with no title and only a `url` field
normalizes to an empty title — not to its link, which is non-empty. -/
theorem normalize_title_fallback_cex :
    (normalize ⟨none, none, some "http://a".data⟩).title = [] ∧
    (normalize ⟨none, none, some "http://a".data⟩).link = "http://a".data ∧
    (normalize ⟨none, none, some "http://a".data⟩).title ≠
      (normalize ⟨none, none, some "http://a".data⟩).link := by
  refine ⟨rfl, rfl, by decide⟩

/-- C5 (amended): normalization is total; the title is the raw title
field when present and non-empty and the empty string otherwise; the link
is taken from the primary `link` field, then the alternate `url` field,
and is empty when both are absent or empty. -/
theorem normalize_fields (i : RawItem) :
    ((i.title = none ∨ i.title = some []) → (normalize i).title = []) ∧
    (∀ t, i.title = some t → t ≠ [] → (normalize i).title = t) ∧
    (∀ u, i.link = some u → u ≠ [] → (normalize i).link = u) ∧
    ((i.link = none ∨ i.link = some []) →
      ∀ u, i.url = some u → u ≠ [] → (normalize i).link = u) ∧
    ((i.link = none ∨ i.link = some []) → (i.url = none ∨ i.url = some []) →
      (normalize i).link = []) := by
  obtain ⟨t, lk, u⟩ := i
  refine ⟨?_, ?_, ?_, ?_, ?_⟩
  · rintro (h | h) <;> subst h <;> simp [normalize, jsOr]
  · rintro t' h h2
    subst h
    simp [normalize, jsOr, h2]
  · rintro u' h h2
    subst h
    simp [normalize, jsOr, h2]
  · rintro (h | h) u' h2 h3 <;> subst h <;> subst h2 <;> simp [normalize, jsOr, h3]
  · rintro (h | h) (h2 | h2) <;> subst h <;> subst h2 <;> simp [normalize, jsOr]

/-- Witness: the alternate `url` field supplies the link of a concrete
raw record. -/
theorem normalize_fields_witness :
    (normalize sampleRaw).link = "http://iptv.example/a".data :=
  (normalize_fields sampleRaw).2.2.1 "http://iptv.example/a".data rfl (by decide)

/-- C6: A deduplicated record survives the filter step iff its lowercased
link contains at least one lowercased query term as a substring (OR across
terms); every excluded record's link contains none of the terms; and the
filter predicate never consults the title. -/
theorem filter_or_terms_on_link (l : List NormalizedResult) (r : NormalizedResult) :
    (r ∈ filterStep l ↔
      r ∈ l ∧ ∃ t ∈ AUTO_TERMS, includesL (lowerL r.link) (lowerL t) = true) ∧
    (r ∈ l → r ∉ filterStep l →
      ∀ t ∈ AUTO_TERMS, includesL (lowerL r.link) (lowerL t) = false) ∧
    (∀ t₁ t₂ k, keepItem ⟨t₁, k⟩ = keepItem ⟨t₂, k⟩) := by
  have hiff : r ∈ filterStep l ↔
      r ∈ l ∧ ∃ t ∈ AUTO_TERMS, includesL (lowerL r.link) (lowerL t) = true := by
    simp [filterStep, List.mem_filter, keepItem, List.any_eq_true]
  refine ⟨hiff, ?_, fun t₁ t₂ k => rfl⟩
  intro hmem hnot t ht
  have hno : ¬ ∃ t ∈ AUTO_TERMS, includesL (lowerL r.link) (lowerL t) = true :=
    fun hex => hnot (hiff.mpr ⟨hmem, hex⟩)
  push_neg at hno
  simpa using hno t ht

/-- Witness: a concrete record excluded by the filter step matches no
term; here instantiated at the first query term. -/
theorem filter_or_terms_on_link_witness :
    includesL (lowerL sampleDropped.link) (lowerL "iptv".data) = false :=
  (filter_or_terms_on_link [sampleDropped] sampleDropped).2.1 (by decide) (by decide)
    "iptv".data (by decide)

/-- C7 counterexample: for timestamps 9 < 10, lexicographic filename
order reverses chronology — the snapshot named for time 10 sorts before
the one for time 9, and the latest-selection returns the older one. -/
theorem latest_lex_order_cex :
    (9 : Nat) < 10 ∧
    lexLtB (snapshotFilename 10) (snapshotFilename 9) = true ∧
    latestName [snapshotFilename 9, snapshotFilename 10] =
      some (snapshotFilename 9) ∧
    snapshotFilename 9 ≠ snapshotFilename 10 := by
  decide

/-- C7 (amended): snapshot filenames embed the millisecond timestamp;
whenever the timestamps render to the same number of decimal digits,
lexicographic filename order agrees with chronological order, so the
latest-selection over snapshots created at `t₁ < t₂ < t₃` returns the one
created at `t₃`. Moreover every clock value from `10^12` ms (September
2001) up to `10^13` ms (November 2286) renders to exactly 13 digits, so
the equal-width precondition holds throughout that era; at a digit-width
boundary (such as the 13-to-14-digit rollover of November 2286) the order
reverses, as the counterexample shows. -/
theorem latest_returns_newest :
    (∀ t₁ t₂ t₃ : Nat, t₁ < t₂ → t₂ < t₃ →
      (natDigits t₁).length = (natDigits t₂).length →
      (natDigits t₂).length = (natDigits t₃).length →
      lexLtB (snapshotFilename t₁) (snapshotFilename t₃) = true ∧
      latestName [snapshotFilename t₁, snapshotFilename t₂, snapshotFilename t₃] =
        some (snapshotFilename t₃)) ∧
    (∀ t : Nat, 10 ^ 12 ≤ t → t < 10 ^ 13 → (natDigits t).length = 13) := by
  constructor
  · intro t₁ t₂ t₃ h12 h23 hl1 hl2
    have h13 := snapshotFilename_lt_of_lt t₁ t₃ (h12.trans h23) (hl1.trans hl2)
    have ha := snapshotFilename_lt_of_lt t₁ t₂ h12 hl1
    have hb := snapshotFilename_lt_of_lt t₂ t₃ h23 hl2
    refine ⟨h13, ?_⟩
    have hf : [snapshotFilename t₁, snapshotFilename t₂,
        snapshotFilename t₃].filter isSnapshotName =
        [snapshotFilename t₁, snapshotFilename t₂, snapshotFilename t₃] := by
      simp [List.filter_cons, isSnapshotName_filename]
    unfold latestName
    rw [hf]
    show some ([snapshotFilename t₂, snapshotFilename t₃].foldl lexMax
      (snapshotFilename t₁)) = _
    simp only [List.foldl_cons, List.foldl_nil]
    simp [lexMax, ha, hb]
  · exact natDigits_length_13

/-- Witness: three consecutive contemporary millisecond timestamps, which
fall inside the 13-digit era. -/
theorem latest_returns_newest_witness :
    (lexLtB (snapshotFilename 1700000000000) (snapshotFilename 1700000000002) = true ∧
     latestName [snapshotFilename 1700000000000, snapshotFilename 1700000000001,
       snapshotFilename 1700000000002] = some (snapshotFilename 1700000000002)) ∧
    (natDigits 1700000000001).length = 13 :=
  ⟨latest_returns_newest.1 1700000000000 1700000000001 1700000000002
      (by omega) (by omega) (by decide) (by decide),
   latest_returns_newest.2 1700000000001 (by norm_num) (by norm_num)⟩

/-- C8: Provider failures are isolated: a pass from a non-busy state with
a working snapshot store completes for every provider behaviour; a failed
Exa call leaves the other providers' contributions intact; and an HTTP
429 on a Google page ends that provider's pagination for the pass while
keeping the pages already collected, regardless of the remaining pages. -/
theorem provider_failure_isolated (env : ProviderEnv) (st : SchedState)
    (resp : Nat → PageOutcome) (ps qs : List Nat) (p : Nat) (e : Str)
    (hrun : st.isRunning = false) (hw : env.writeOk = true)
    (hexa : env.exaResp = .error e)
    (h429 : resp p = .fail (some 429))
    (hps : ∀ q ∈ ps, resp q ≠ .fail (some 429)) :
    (runAutoSearch st env).2 =
      .completed (processItems (allItems env)) (snapshotFilename env.now) ∧
    allItems env = googleContrib env ++ serpContrib env ∧
    googleFetch resp (ps ++ p :: qs) = googleFetch resp ps := by
  refine ⟨?_, ?_, ?_⟩
  · simp [runAutoSearch, hrun, hw]
  · simp [allItems, exaContrib, hexa]
  · clear hrun hw hexa
    revert hps
    induction ps with
    | nil =>
      intro _
      simp [googleFetch, h429]
    | cons q ps ih =>
      intro hps
      have hq := hps q (List.mem_cons_self _ _)
      have hrec := ih fun x hx => hps x (List.mem_cons_of_mem _ hx)
      cases hr : resp q with
      | ok items =>
        simp only [List.cons_append, googleFetch, hr]
        exact congrArg (fun x => items ++ x) hrec
      | fail status =>
        have hs : ¬ status = some 429 := fun h => hq (by rw [hr, h])
        simp only [List.cons_append, googleFetch, hr]
        simp [hs, hrec]

/-- Witness: a concrete environment rate limited by Google after one page
and with a throwing Exa call. -/
theorem provider_failure_isolated_witness :
    (runAutoSearch idleState env429).2 =
      .completed (processItems (allItems env429)) (snapshotFilename 3) ∧
    allItems env429 = googleContrib env429 ++ serpContrib env429 ∧
    googleFetch resp429 ([1] ++ 11 :: [21, 31]) = googleFetch resp429 [1] :=
  provider_failure_isolated env429 idleState resp429 [1] [21, 31] 11 "boom".data
    rfl rfl rfl (by decide) (by decide)

/-- C9 counterexample: when the immediate pass of a re-entrant `start`
throws at the snapshot write, the handler answers 500 with no timer armed
at all — the prior timer was cleared and the live-handle set is left
empty, not a singleton. -/
theorem start_error_no_timer_cex :
    (startScheduler runningState envWriteFail 1).1.scheduler = none ∧
    (startScheduler runningState envWriteFail 1).1.activeIntervals = [] ∧
    (startScheduler runningState envWriteFail 1).2 = StartResponse.error := by
  decide

/-- C9 (amended): every `start` call first clears the primary timer and
the whole live-handle set; afterwards, if the immediate pass did not
throw, exactly the fresh handle is armed and registered (never two); if
it threw, no timer at all is armed. -/
theorem start_rearm_single_timer (st : SchedState) (env : ProviderEnv) (freshId : Nat) :
    ((startScheduler st env freshId).2 ≠ StartResponse.error →
      (startScheduler st env freshId).1.scheduler = some freshId ∧
      (startScheduler st env freshId).1.activeIntervals = [freshId]) ∧
    ((startScheduler st env freshId).2 = StartResponse.error →
      (startScheduler st env freshId).1.scheduler = none ∧
      (startScheduler st env freshId).1.activeIntervals = []) := by
  unfold startScheduler runAutoSearch
  by_cases hb : st.isRunning <;> by_cases hw : env.writeOk <;> simp [hb, hw]

/-- Witness: a successful re-entrant `start` leaves exactly the fresh
handle armed. -/
theorem start_rearm_single_timer_witness :
    (startScheduler runningState sampleEnv 1).1.scheduler = some 1 ∧
    (startScheduler runningState sampleEnv 1).1.activeIntervals = [1] :=
  (start_rearm_single_timer runningState sampleEnv 1).1 (by decide)

/-- C10: the snapshot reader lists names in the process working directory
but reads the chosen name from the server source directory. When the two
directories coincide, the read succeeds with the contents of the selected
(lexicographically greatest) snapshot; and there is a store with a listed
snapshot where the directories differ and the read throws. -/
theorem latest_read_requires_same_dir :
    (∀ fsys : FileStore, fsys.srcFiles = fsys.cwdFiles →
      ∀ sel, latestName (fsys.cwdFiles.map Prod.fst) = some sel →
        ∃ c, lookupFile fsys.srcFiles sel = some c ∧
          latestResults fsys = ReadOutcome.ok c ∧ (sel, c) ∈ fsys.cwdFiles) ∧
    (∃ fsys : FileStore, fsys.cwdFiles ≠ fsys.srcFiles ∧
      latestName (fsys.cwdFiles.map Prod.fst) ≠ none ∧
      latestResults fsys = ReadOutcome.readError) := by
  constructor
  · intro fsys hsame sel hsel
    have hmem : sel ∈ fsys.cwdFiles.map Prod.fst := latestName_mem _ _ hsel
    obtain ⟨c, hc1, hc2⟩ := lookupFile_of_mem_keys fsys.cwdFiles sel hmem
    refine ⟨c, by rw [hsame]; exact hc1, ?_, hc2⟩
    simp [latestResults, hsel, hsame, hc1]
  · exact ⟨storeMismatch, by decide, by decide, by decide⟩

/-- Witness: with matching directories the concrete store's snapshot is
read back successfully. -/
theorem latest_read_requires_same_dir_witness :
    latestResults storeMatch = ReadOutcome.ok "[]".data := by
  obtain ⟨c, hc1, hc2, _⟩ := latest_read_requires_same_dir.1 storeMatch rfl
    "auto_results_1.json".data (by decide)
  have heval : lookupFile storeMatch.srcFiles "auto_results_1.json".data =
      some "[]".data := by decide
  rw [heval] at hc1
  injection hc1 with hc
  rw [hc]
  exact hc2

end Iptv
